import Mathlib

/-!
# Verification of the request-routing and homepage-composition pipeline

Shallow embedding of `src/server.js` of JesseSolomon/My-Website: the
tenant resolver, the analytics recorder, and the homepage composer
(`staticHandler` inside `serve`).  JavaScript strings are modelled as
Lean `String`; nullable text columns (`url`, `repo` of `projects`) are
modelled as `String` with `""` standing for SQL NULL, matching the
JavaScript truthiness tests `project.repo ? _ : _` under which both
`null` and the empty string are falsy.
-/

/-- A row of the `sections` table (line 79 of server.js):
`id int auto_increment primary key, title varchar(128)`. -/
structure SectionRow where
  id : Int
  title : String
deriving DecidableEq, Repr

/-- A row of the `projects` table (line 80 of server.js):
`id, section (foreign key), title, url, repo`; `url` and `repo` are
nullable, NULL modelled as `""`. -/
structure Project where
  id : Int
  sectionId : Int
  title : String
  url : String
  repo : String
deriving DecidableEq, Repr

/-- The body of the per-project loop, lines 115-121 of server.js:
`<li><div class="wrapper">` followed by the title span, the optional
github anchor (note: no closing tag in the source), the optional link
anchor, then `</div></li>`. -/
def renderProject (project : Project) : String :=
  let title := "<span>" ++ project.title ++ "</span>"
  let repo :=
    if project.repo ≠ "" then
      "<a class=\"github\" href=\"" ++ project.repo ++ "\" target=\"_blank\">"
    else ""
  let url :=
    if project.url ≠ "" then
      "<a class=\"link\" href=\"" ++ project.url ++ "\"></a>"
    else ""
  "<li><div class=\"wrapper\">" ++ title ++ repo ++ url ++ "</div></li>"

/-- The `for (let project of projects)` accumulation of line 115:
items are appended left to right. -/
def projectItems : List Project → String
  | [] => ""
  | p :: ps => renderProject p ++ projectItems ps

/-- The fragment computed for one section, lines 108-127 of server.js:
the heading, then - only when `projects.length` is truthy - one
`<ul class="projects">` holding the project items. -/
def sectionFragment (s : SectionRow) (projects : List Project) : String :=
  "<h2>" ++ s.title ++ "</h2>" ++
    (if projects.length ≠ 0 then
      "<ul class=\"projects\">" ++ projectItems projects ++ "</ul>"
    else "")

/-- The fan-in of lines 130-131: fragments joined in section query
order with the visual break, the string passed to `set_content`. -/
def composeContent (sections : List SectionRow)
    (projectsOf : Int → List Project) : String :=
  String.intercalate "<br/>" (sections.map (fun s => sectionFragment s (projectsOf s.id)))

/-! ## Promise.all as an index-aligned gather

Lines 108-134 scatter one projects query per section and recombine with
`Promise.all(sectionContent)`.  `Promise.all` stores each result at the
index of its promise in the input array, whatever the completion order.
We model an execution as a `schedule`: the list of task indices in the
order their callbacks fire; firing task `i` stores the fragment for
section `i` in slot `i`.  The fan-in fires once every slot is filled. -/

/-- Run the callbacks in schedule order; callback `i` fills slot `i`
with its computed fragment. -/
def runSchedule (compute : Nat → String) : List Nat → List (Option String) → List (Option String)
  | [], slots => slots
  | i :: rest, slots => runSchedule compute rest (slots.set i (some (compute i)))

/-- The fan-in guard: `Promise.all` yields the results only when every
slot has been filled. -/
def gatherAll : List (Option String) → Option (List String)
  | [] => some []
  | none :: _ => none
  | some x :: rest => (gatherAll rest).map (fun l => x :: l)

/-- The fragment computed by the task for index `i` of the sections
array (lines 108-128). -/
def fragmentAt (sections : List SectionRow) (projectsOf : Int → List Project) (i : Nat) : String :=
  match sections[i]? with
  | some s => sectionFragment s (projectsOf s.id)
  | none => ""

/-- The container content produced by one concrete execution of the
fan-out/fan-in, lines 108-131: tasks complete in `schedule` order, the
results are gathered by slot index and joined with the visual break.
`none` means the fan-in never fired in this execution. -/
def composeScheduled (sections : List SectionRow) (projectsOf : Int → List Project)
    (schedule : List Nat) : Option String :=
  (gatherAll (runSchedule (fragmentAt sections projectsOf) schedule
      (List.replicate sections.length none))).map (String.intercalate "<br/>")

/-! ## Tenant resolution and the middleware (lines 92-157) -/

/-- An incoming request, the fields of `req` the middleware reads. -/
structure Request where
  ip : String
  hostname : String
  path : String
deriving DecidableEq, Repr

/-- Line 93: `req.hostname.split(".")[0]`, the hostname label before the
first dot (the whole hostname when it has no dot, the empty string when
it starts with a dot - exactly what the JavaScript split yields). -/
def domainOf (hostname : String) : String :=
  String.mk (hostname.data.takeWhile (fun c => c ≠ '.'))

/-- What the middleware does with the request after the analytics step:
hand it to `staticHandler dir` (lines 144/151) or end it with status 404
and an empty body (line 154). -/
inductive RouteDecision where
  | handle (dir : String)
  | reject (status : Nat) (body : String)
deriving DecidableEq, Repr

/-- Lines 143-156: reserved first labels serve the default `public`
root; any other label serves `apps/<label>` when that directory exists
at request time, else 404 with empty body.  `dirExists` is the
filesystem oracle for `fs.existsSync`. -/
def route (hostname : String) (dirExists : String → Bool) : RouteDecision :=
  let domain := domainOf hostname
  if domain = "jessesolomon" ∨ domain = "localhost" then
    .handle "public"
  else
    let appPath := "apps/" ++ domain
    if dirExists appPath then .handle appPath else .reject 404 ""

/-- A row of the `analytics` table (line 81 of server.js):
`hash varchar(256) not null, url varchar(128)` - note the CREATE TABLE
declares no primary key and no unique index. -/
structure AnalyticsRow where
  hash : String
  url : String
deriving DecidableEq, Repr

/-- Lines 95-97: the insert is attempted unless `req.ip === "::1"`; the
hash is `ip + "@" + hostname + path` and the url `hostname + path`
(`db.escape` only quotes the values and is modelled as the identity). -/
def analyticsWrites (req : Request) : List AnalyticsRow :=
  if req.ip ≠ "::1" then
    [⟨req.ip ++ "@" ++ req.hostname ++ req.path, req.hostname ++ req.path⟩]
  else []

/-- MySQL `insert ignore` against a single-table schema: the row is
skipped only when it collides with an existing row on a declared unique
key; with no unique key declared every insert appends a row.
`uniqueOnHash` records whether the schema declared `hash` unique. -/
def insertIgnore (uniqueOnHash : Bool) (table : List AnalyticsRow)
    (row : AnalyticsRow) : List AnalyticsRow :=
  if uniqueOnHash ∧ table.any (fun r => r.hash = row.hash) then table
  else table ++ [row]

/-- The analytics insert of line 96 as executed against the schema of
line 81: that CREATE TABLE declares no primary or unique key, so the
`ignore` modifier never suppresses a row. -/
def analyticsInsert (table : List AnalyticsRow) (row : AnalyticsRow) : List AnalyticsRow :=
  insertIgnore false table row

/-- One pass through the middleware of lines 92-157, restricted to what
it emits: first the analytics writes (lines 95-97, before any tenant
check), then the routing decision (lines 143-156). -/
def middleware (req : Request) (dirExists : String → Bool) :
    List AnalyticsRow × RouteDecision :=
  (analyticsWrites req, route req.hostname dirExists)

/-! ## The homepage handler with failure and container outcomes

`staticHandler` for the root path, lines 101-135.  Query results arrive
through node-style callbacks `(error, rows)`; the source names the error
`_error` and never tests it, so a failed query hands the callback
`undefined` rows.  `Option` models that: `none` is a failed query. -/

/-- How one root-path request can end. -/
inductive ComposeOutcome where
  /-- Line 133 ran: the response was sent with the given container
  content injected. -/
  | sent (content : String)
  /-- The sections query failed: line 108 evaluates `sections.map` on
  `undefined` and the callback throws; no response is sent. -/
  | sectionsCallbackCrash
  /-- Some projects query failed: line 112 evaluates `projects.length`
  on `undefined`, that promise never resolves, the fan-in of line 130
  never fires; no response is sent. -/
  | fanoutStalled
  /-- The template has no `#sections` element: line 131 calls
  `set_content` on `null` after the fan-in and throws before line 133;
  no response is sent. -/
  | setContentCrash
deriving DecidableEq, Repr

/-- Lines 101-135 for `req.path === "/"`: parse the template, look up
`#sections` (`hasContainer`), run the sections query, fan out one
projects query per section row, fan in, inject, send.  Returns the
number of queries the handler issued together with the outcome. -/
def homepageRun (hasContainer : Bool) (sectionsRes : Option (List SectionRow))
    (projectsRes : Int → Option (List Project)) : Nat × ComposeOutcome :=
  match sectionsRes with
  | none => (1, .sectionsCallbackCrash)
  | some sections =>
    (1 + sections.length,
      if sections.all (fun s => (projectsRes s.id).isSome) then
        if hasContainer then
          .sent (composeContent sections (fun sid => (projectsRes sid).getD []))
        else .setContentCrash
      else .fanoutStalled)

/-- The body delivered to the client, when one was delivered at all. -/
def responseOf : ComposeOutcome → Option String
  | .sent content => some content
  | _ => none

/-! ## Counting occurrences of markup substrings

To state that a fragment holds exactly one list element and one list
item per project we count occurrences of the opening markup.  The data
that gets interpolated into the markup (titles, urls, repos) is only
assumed not to contain a raw `<`, so every counted occurrence comes
from the literal pieces of the template strings. -/

/-- Number of positions of `l` at which `pat` occurs as a substring. -/
def countOcc (pat : List Char) : List Char → Nat
  | [] => 0
  | c :: rest => (if pat.isPrefixOf (c :: rest) then 1 else 0) + countOcc pat rest

/-- Substring occurrence count on strings. -/
def countSub (pat s : String) : Nat := countOcc pat.data s.data

/-- `true` when some occurrence of `p` could begin inside `L` and end
past it: some nonempty suffix of `L` is a proper prefix of `p`. -/
def canStraddle (p L : List Char) : Bool :=
  (List.range L.length).any
    (fun j => (L.drop j).isPrefixOf p && decide ((L.drop j).length < p.length))

/-- A piece of rendered markup: a template literal, or interpolated
data (a title, url or repo value). -/
inductive Piece where
  | lit (s : String)
  | val (s : String)
deriving DecidableEq, Repr

/-- The characters of a piece list. -/
def flatten : List Piece → List Char
  | [] => []
  | .lit s :: rest => s.data ++ flatten rest
  | .val s :: rest => s.data ++ flatten rest

/-- Occurrences of `p` inside the literal pieces alone. -/
def countPieces (p : List Char) : List Piece → Nat
  | [] => 0
  | .lit s :: rest => countOcc p s.data + countPieces p rest
  | .val _ :: rest => countPieces p rest

/-- Every literal piece is straddle-free for the pattern `p`. -/
def litsOk (p : List Char) : List Piece → Bool
  | [] => true
  | .lit s :: rest => !canStraddle p s.data && litsOk p rest
  | .val _ :: rest => litsOk p rest

/-- The pieces of one rendered project item, mirroring `renderProject`. -/
def itemPieces (project : Project) : List Piece :=
  [.lit "<li><div class=\"wrapper\">", .lit "<span>", .val project.title, .lit "</span>"] ++
  (if project.repo ≠ "" then
    [.lit "<a class=\"github\" href=\"", .val project.repo, .lit "\" target=\"_blank\">"]
  else []) ++
  (if project.url ≠ "" then
    [.lit "<a class=\"link\" href=\"", .val project.url, .lit "\"></a>"]
  else []) ++
  [.lit "</div></li>"]

/-- The pieces of the item run, mirroring `projectItems`. -/
def itemsPieces : List Project → List Piece
  | [] => []
  | q :: qs => itemPieces q ++ itemsPieces qs

/-- The pieces of one section fragment, mirroring `sectionFragment`. -/
def fragmentPieces (s : SectionRow) (ps : List Project) : List Piece :=
  [.lit "<h2>", .val s.title, .lit "</h2>"] ++
  (if ps.length ≠ 0 then
    Piece.lit "<ul class=\"projects\">" :: (itemsPieces ps ++ [Piece.lit "</ul>"])
  else [])

/-- All template literals that can occur in a project item. -/
def itemLits : List String :=
  ["<li><div class=\"wrapper\">", "<span>", "</span>",
   "<a class=\"github\" href=\"", "\" target=\"_blank\">",
   "<a class=\"link\" href=\"", "\"></a>", "</div></li>"]

/-- All template literals that can occur in a section fragment. -/
def fragmentLits : List String :=
  ["<h2>", "</h2>", "<ul class=\"projects\">", "</ul>"] ++ itemLits

/-- The unordered-list opening markup. -/
def ulTag : String := "<ul"

/-- The list-item opening markup. -/
def liTag : String := "<li>"

/-- An anchor opening. -/
def anchorTag : String := "<a "

/-- The github anchor opening. -/
def githubTag : String := "<a class=\"github\""

/-- An anchor closing. -/
def closeAnchor : String := "</a>"

/-- The list item as the specification words it: the project title as
plain text, then - exactly when `repo` is non-empty - a github
affordance anchor, then - exactly when `url` is non-empty - a link
affordance anchor, in that relative order, inside the wrapper. -/
def projectItemSpec (project : Project) : String :=
  "<li><div class=\"wrapper\">" ++
    ("<span>" ++ project.title ++ "</span>") ++
    (if project.repo ≠ "" then
      "<a class=\"github\" href=\"" ++ project.repo ++ "\" target=\"_blank\">"
    else "") ++
    (if project.url ≠ "" then
      "<a class=\"link\" href=\"" ++ project.url ++ "\"></a>"
    else "") ++
    "</div></li>"

lemma isPrefixOf_append_stable (p A b : List Char)
    (h : ¬(A.isPrefixOf p = true ∧ A.length < p.length)) :
    p.isPrefixOf (A ++ b) = p.isPrefixOf A := by
  induction A generalizing p with
  | nil =>
    cases p with
    | nil => simp [List.isPrefixOf]
    | cons x p' => exact absurd ⟨by simp [List.isPrefixOf], by simp⟩ h
  | cons a A' ih =>
    cases p with
    | nil => simp [List.isPrefixOf]
    | cons x p' =>
      simp only [List.cons_append, List.isPrefixOf, List.append_eq]
      by_cases hax : (x == a) = true
      · have hxa : (a == x) = true := by
          rw [beq_iff_eq] at hax ⊢; exact hax.symm
        rw [ih p' ?_]
        intro ⟨hpre, hlen⟩
        exact h ⟨by simp [List.isPrefixOf, hxa, hpre], by simpa using hlen⟩
      · rw [Bool.not_eq_true] at hax
        simp [hax]

lemma countOcc_nil (pat : List Char) : countOcc pat [] = 0 := rfl

lemma canStraddle_of_cons (p : List Char) (c : Char) (L : List Char)
    (h : canStraddle p (c :: L) = false) : canStraddle p L = false := by
  rw [Bool.eq_false_iff] at h ⊢
  intro hL
  apply h
  simp only [canStraddle, List.any_eq_true, List.mem_range] at hL ⊢
  obtain ⟨j, hj, hcond⟩ := hL
  exact ⟨j + 1, by simpa using Nat.succ_lt_succ hj, by simpa using hcond⟩

lemma countOcc_lit_append (p L b : List Char) (h : canStraddle p L = false) :
    countOcc p (L ++ b) = countOcc p L + countOcc p b := by
  induction L with
  | nil => simp [countOcc_nil]
  | cons c L' ih =>
    have h0 : ¬((c :: L').isPrefixOf p = true ∧ (c :: L').length < p.length) := by
      intro ⟨hpre, hlen⟩
      rw [Bool.eq_false_iff] at h
      apply h
      simp only [canStraddle, List.any_eq_true, List.mem_range]
      exact ⟨0, by simp, by simpa [hpre] using hlen⟩
    have hstep := isPrefixOf_append_stable p (c :: L') b h0
    have hL' := canStraddle_of_cons p c L' h
    rw [List.cons_append] at hstep
    simp only [List.cons_append, countOcc, List.append_eq] at *
    simp only [hstep, ih hL']
    omega

lemma countOcc_val_append (c : Char) (pt a b : List Char) (hc : c ∉ a) :
    countOcc (c :: pt) (a ++ b) = countOcc (c :: pt) b := by
  induction a with
  | nil => simp
  | cons x a' ih =>
    have hcx : (c == x) = false := by
      simp only [beq_eq_false_iff_ne]
      intro h2
      exact hc (h2 ▸ List.mem_cons_self x a')
    have hc' : c ∉ a' := fun h2 => hc (List.mem_cons_of_mem x h2)
    simp only [List.cons_append, countOcc, List.isPrefixOf, hcx, Bool.false_and,
      List.append_eq]
    simpa using ih hc'

lemma flatten_append (A B : List Piece) :
    flatten (A ++ B) = flatten A ++ flatten B := by
  induction A with
  | nil => simp [flatten]
  | cons piece rest ih => cases piece <;> simp [flatten, ih]

lemma countPieces_append (p : List Char) (A B : List Piece) :
    countPieces p (A ++ B) = countPieces p A + countPieces p B := by
  induction A with
  | nil => simp [countPieces]
  | cons piece rest ih =>
    cases piece with
    | lit s => simp [countPieces, ih]; omega
    | val s => simp [countPieces, ih]

lemma litsOk_append (p : List Char) (A B : List Piece) :
    litsOk p (A ++ B) = (litsOk p A && litsOk p B) := by
  induction A with
  | nil => simp [litsOk]
  | cons piece rest ih => cases piece <;> simp [litsOk, ih, Bool.and_assoc]

lemma countOcc_flatten (p : List Char) (hp : p.head? = some '<')
    (pieces : List Piece) (hlits : litsOk p pieces = true)
    (hvals : ∀ s, Piece.val s ∈ pieces → '<' ∉ s.data) (b : List Char) :
    countOcc p (flatten pieces ++ b) = countPieces p pieces + countOcc p b := by
  obtain ⟨pt, rfl⟩ : ∃ pt, p = '<' :: pt := by
    cases p with
    | nil => simp at hp
    | cons c pt =>
      simp only [List.head?_cons, Option.some.injEq] at hp
      exact ⟨pt, by rw [hp]⟩
  clear hp
  induction pieces with
  | nil => simp [flatten, countPieces]
  | cons piece rest ih =>
    cases piece with
    | lit s =>
      simp only [litsOk, Bool.and_eq_true, Bool.not_eq_true'] at hlits
      have hvals' : ∀ t, Piece.val t ∈ rest → '<' ∉ t.data :=
        fun t ht => hvals t (List.mem_cons_of_mem _ ht)
      simp only [flatten, countPieces, List.append_assoc]
      rw [countOcc_lit_append _ _ _ hlits.1, ih hvals' hlits.2]
      omega
    | val s =>
      simp only [litsOk] at hlits
      have hvals' : ∀ t, Piece.val t ∈ rest → '<' ∉ t.data :=
        fun t ht => hvals t (List.mem_cons_of_mem _ ht)
      have hval : '<' ∉ s.data := hvals s (List.mem_cons_self _ _)
      simp only [flatten, countPieces, List.append_assoc]
      rw [countOcc_val_append _ _ _ _ hval, ih hvals' hlits]

lemma data_empty : ("" : String).data = [] := rfl

lemma renderProject_flatten (q : Project) :
    (renderProject q).data = flatten (itemPieces q) := by
  by_cases hr : q.repo = "" <;> by_cases hu : q.url = "" <;>
    simp [renderProject, itemPieces, hr, hu, flatten, flatten_append,
      String.data_append, data_empty, List.append_assoc]

lemma projectItems_flatten (ps : List Project) :
    (projectItems ps).data = flatten (itemsPieces ps) := by
  induction ps with
  | nil => rfl
  | cons q qs ih =>
    simp [projectItems, itemsPieces, String.data_append, flatten_append,
      renderProject_flatten, ih]

lemma sectionFragment_flatten (s : SectionRow) (ps : List Project) :
    (sectionFragment s ps).data = flatten (fragmentPieces s ps) := by
  by_cases h : ps.length = 0 <;>
    simp [sectionFragment, fragmentPieces, h, flatten, flatten_append,
      String.data_append, data_empty, projectItems_flatten, List.append_assoc]

lemma litsOk_iff (p : List Char) (pieces : List Piece) :
    litsOk p pieces = true ↔
      ∀ L, Piece.lit L ∈ pieces → canStraddle p L.data = false := by
  induction pieces with
  | nil => simp [litsOk]
  | cons piece rest ih =>
    cases piece with
    | lit s =>
      simp only [litsOk, Bool.and_eq_true, Bool.not_eq_true', ih, List.mem_cons]
      constructor
      · rintro ⟨h1, h2⟩ L (hL | hL)
        · cases hL; exact h1
        · exact h2 L hL
      · intro h
        exact ⟨h s (Or.inl rfl), fun L hL => h L (Or.inr hL)⟩
    | val s =>
      simp only [litsOk, ih, List.mem_cons]
      constructor
      · rintro h L (hL | hL)
        · simp at hL
        · exact h L hL
      · intro h L hL
        exact h L (Or.inr hL)

lemma val_mem_itemPieces (q : Project) (t : String)
    (h : Piece.val t ∈ itemPieces q) : t = q.title ∨ t = q.url ∨ t = q.repo := by
  by_cases hr : q.repo = "" <;> by_cases hu : q.url = "" <;>
    simp [itemPieces, hr, hu] at h <;> tauto

lemma lit_mem_itemPieces (q : Project) (L : String)
    (h : Piece.lit L ∈ itemPieces q) : L ∈ itemLits := by
  by_cases hr : q.repo = "" <;> by_cases hu : q.url = "" <;>
    simp [itemPieces, hr, hu] at h <;> simp [itemLits] <;> tauto

lemma val_mem_itemsPieces (ps : List Project) (t : String)
    (h : Piece.val t ∈ itemsPieces ps) :
    ∃ q ∈ ps, t = q.title ∨ t = q.url ∨ t = q.repo := by
  induction ps with
  | nil => simp [itemsPieces] at h
  | cons q qs ih =>
    simp only [itemsPieces, List.mem_append] at h
    rcases h with h | h
    · exact ⟨q, List.mem_cons_self _ _, val_mem_itemPieces q t h⟩
    · obtain ⟨r, hrr, hs⟩ := ih h
      exact ⟨r, List.mem_cons_of_mem _ hrr, hs⟩

lemma lit_mem_itemsPieces (ps : List Project) (L : String)
    (h : Piece.lit L ∈ itemsPieces ps) : L ∈ itemLits := by
  induction ps with
  | nil => simp [itemsPieces] at h
  | cons q qs ih =>
    simp only [itemsPieces, List.mem_append] at h
    rcases h with h | h
    · exact lit_mem_itemPieces q L h
    · exact ih h

lemma val_mem_fragmentPieces (s : SectionRow) (ps : List Project) (t : String)
    (h : Piece.val t ∈ fragmentPieces s ps) :
    t = s.title ∨ ∃ q ∈ ps, t = q.title ∨ t = q.url ∨ t = q.repo := by
  unfold fragmentPieces at h
  by_cases hl : ps.length = 0 <;> simp [hl] at h
  · tauto
  · rcases h with h | h
    · tauto
    · exact Or.inr (val_mem_itemsPieces ps t h)

lemma lit_mem_fragmentPieces (s : SectionRow) (ps : List Project) (L : String)
    (h : Piece.lit L ∈ fragmentPieces s ps) : L ∈ fragmentLits := by
  unfold fragmentPieces at h
  by_cases hl : ps.length = 0 <;> simp [hl] at h
  · simp [fragmentLits, itemLits]
    tauto
  · have hcase : L = "<h2>" ∨ L = "</h2>" ∨ L = "<ul class=\"projects\">" ∨
        L = "</ul>" ∨ Piece.lit L ∈ itemsPieces ps := by tauto
    rcases hcase with rfl | rfl | rfl | rfl | hmem
    · simp [fragmentLits, itemLits]
    · simp [fragmentLits, itemLits]
    · simp [fragmentLits, itemLits]
    · simp [fragmentLits, itemLits]
    · have := lit_mem_itemsPieces ps L hmem
      simp [fragmentLits, itemLits] at this ⊢
      tauto

lemma countPieces_item_li (q : Project) :
    countPieces liTag.data (itemPieces q) = 1 := by
  by_cases hr : q.repo = "" <;> by_cases hu : q.url = "" <;>
    simp [itemPieces, hr, hu, countPieces] <;> decide

lemma countPieces_item_ul (q : Project) :
    countPieces ulTag.data (itemPieces q) = 0 := by
  by_cases hr : q.repo = "" <;> by_cases hu : q.url = "" <;>
    simp [itemPieces, hr, hu, countPieces] <;> decide

lemma countPieces_items_li (ps : List Project) :
    countPieces liTag.data (itemsPieces ps) = ps.length := by
  induction ps with
  | nil => simp [itemsPieces, countPieces]
  | cons q qs ih =>
    simp only [itemsPieces, List.length_cons]
    rw [countPieces_append, countPieces_item_li, ih]
    omega

lemma countPieces_items_ul (ps : List Project) :
    countPieces ulTag.data (itemsPieces ps) = 0 := by
  induction ps with
  | nil => simp [itemsPieces, countPieces]
  | cons q qs ih =>
    simp only [itemsPieces]
    rw [countPieces_append, countPieces_item_ul, ih]

lemma countSub_sectionFragment (P : String) (hp : P.data.head? = some '<')
    (s : SectionRow) (ps : List Project)
    (htitle : '<' ∉ s.title.data)
    (hfields : ∀ q ∈ ps, '<' ∉ q.title.data ∧ '<' ∉ q.url.data ∧ '<' ∉ q.repo.data)
    (hlits : ∀ L ∈ fragmentLits, canStraddle P.data L.data = false) :
    countSub P (sectionFragment s ps) = countPieces P.data (fragmentPieces s ps) := by
  unfold countSub
  rw [sectionFragment_flatten]
  have hl : litsOk P.data (fragmentPieces s ps) = true :=
    (litsOk_iff _ _).mpr (fun L hL => hlits L (lit_mem_fragmentPieces s ps L hL))
  have hv : ∀ t, Piece.val t ∈ fragmentPieces s ps → '<' ∉ t.data := by
    intro t ht
    rcases val_mem_fragmentPieces s ps t ht with rfl | ⟨q, hq, hcase⟩
    · exact htitle
    · rcases hcase with rfl | rfl | rfl
      · exact (hfields q hq).1
      · exact (hfields q hq).2.1
      · exact (hfields q hq).2.2
  have key := countOcc_flatten P.data hp (fragmentPieces s ps) hl hv []
  rw [List.append_nil] at key
  rw [key, countOcc_nil]
  omega

lemma countSub_renderProject (P : String) (hp : P.data.head? = some '<')
    (q : Project) (h1 : '<' ∉ q.title.data) (h2 : '<' ∉ q.url.data)
    (h3 : '<' ∉ q.repo.data)
    (hlits : ∀ L ∈ itemLits, canStraddle P.data L.data = false) :
    countSub P (renderProject q) = countPieces P.data (itemPieces q) := by
  unfold countSub
  rw [renderProject_flatten]
  have hl : litsOk P.data (itemPieces q) = true :=
    (litsOk_iff _ _).mpr (fun L hL => hlits L (lit_mem_itemPieces q L hL))
  have hv : ∀ t, Piece.val t ∈ itemPieces q → '<' ∉ t.data := by
    intro t ht
    rcases val_mem_itemPieces q t ht with rfl | rfl | rfl <;> assumption
  have key := countOcc_flatten P.data hp (itemPieces q) hl hv []
  rw [List.append_nil] at key
  rw [key, countOcc_nil]
  omega

lemma runSchedule_length (compute : Nat → String) (sched : List Nat)
    (slots : List (Option String)) :
    (runSchedule compute sched slots).length = slots.length := by
  induction sched generalizing slots with
  | nil => rfl
  | cons i rest ih => simp [runSchedule, ih]

lemma runSchedule_getElem? (compute : Nat → String) (sched : List Nat)
    (slots : List (Option String)) (j : Nat)
    (hb : ∀ i ∈ sched, i < slots.length) :
    (runSchedule compute sched slots)[j]? =
      if j ∈ sched then some (some (compute j)) else slots[j]? := by
  induction sched generalizing slots with
  | nil => simp [runSchedule]
  | cons i rest ih =>
    simp only [runSchedule]
    rw [ih (slots.set i (some (compute i))) (fun k hk => by
      simpa using hb k (List.mem_cons_of_mem _ hk))]
    by_cases hjr : j ∈ rest
    · simp [hjr, List.mem_cons]
    · by_cases hji : j = i
      · subst hji
        have hi : j < slots.length := hb j (List.mem_cons_self _ _)
        simp [hjr, List.mem_cons, List.getElem?_set_eq_of_lt _ hi]
      · simp [hjr, hji, List.mem_cons, List.getElem?_set_ne (fun h => hji h.symm)]

lemma runSchedule_covering (compute : Nat → String) (n : Nat) (sched : List Nat)
    (hcov : ∀ i, i ∈ sched ↔ i < n) :
    runSchedule compute sched (List.replicate n none) =
      ((List.range n).map compute).map some := by
  apply List.ext_getElem?
  intro j
  rw [runSchedule_getElem? compute sched _ j (fun i hi => by
    simpa using (hcov i).mp hi)]
  by_cases hj : j < n
  · simp [(hcov j).mpr hj, List.getElem?_map, List.getElem?_range, hj]
  · have hnot : j ∉ sched := fun h => hj ((hcov j).mp h)
    have hlen : ¬ j < (((List.range n).map compute).map some).length := by
      simpa using hj
    rw [if_neg hnot]
    rw [List.getElem?_eq_none_iff.mpr (by simpa using Nat.le_of_not_lt hj),
      List.getElem?_eq_none_iff.mpr (by simpa using Nat.le_of_not_lt hj)]

lemma gatherAll_map_some (l : List String) : gatherAll (l.map some) = some l := by
  induction l with
  | nil => rfl
  | cons x rest ih => simp [gatherAll, ih]

lemma range_map_fragmentAt (sections : List SectionRow)
    (projectsOf : Int → List Project) :
    (List.range sections.length).map (fragmentAt sections projectsOf) =
      sections.map (fun s => sectionFragment s (projectsOf s.id)) := by
  apply List.ext_getElem (by simp)
  intro i h1 h2
  simp only [List.getElem_map, List.getElem_range]
  have hi : i < sections.length := by simpa using h2
  simp [fragmentAt, List.getElem?_eq_getElem hi]

/-- C1: whatever the completion order of the per-section project
queries (any schedule covering every section index), the container
content is the per-section fragments joined in the order the sections
query returned them, separated by the visual break; with zero sections
the content is the empty string. -/
theorem c1_compose_in_section_order (sections : List SectionRow)
    (projectsOf : Int → List Project) (schedule : List Nat)
    (hcov : ∀ i, i ∈ schedule ↔ i < sections.length) :
    composeScheduled sections projectsOf schedule =
      some (composeContent sections projectsOf) ∧
    (sections = [] →
      composeScheduled sections projectsOf schedule = some "") := by
  have main : composeScheduled sections projectsOf schedule =
      some (composeContent sections projectsOf) := by
    unfold composeScheduled
    rw [runSchedule_covering (fragmentAt sections projectsOf) sections.length
      schedule hcov]
    rw [gatherAll_map_some, range_map_fragmentAt]
    rfl
  exact ⟨main, fun h => by subst h; rw [main]; rfl⟩

/-- Witness for C1: two sections, completion order reversed. -/
theorem c1_compose_in_section_order_witness :
    (∀ i, i ∈ [1, 0] ↔ i < ([⟨1, "Alpha"⟩, ⟨2, "Beta"⟩] : List SectionRow).length) ∧
    (composeScheduled [⟨1, "Alpha"⟩, ⟨2, "Beta"⟩] (fun _ => []) [1, 0] =
        some (composeContent [⟨1, "Alpha"⟩, ⟨2, "Beta"⟩] (fun _ => [])) ∧
      ([⟨1, "Alpha"⟩, ⟨2, "Beta"⟩] = ([] : List SectionRow) →
        composeScheduled [⟨1, "Alpha"⟩, ⟨2, "Beta"⟩] (fun _ => []) [1, 0] =
          some "")) :=
  have hcov : ∀ i, i ∈ [1, 0] ↔
      i < ([⟨1, "Alpha"⟩, ⟨2, "Beta"⟩] : List SectionRow).length := by
    intro i
    simp only [List.mem_cons, List.not_mem_nil, or_false, List.length_cons,
      List.length_nil]
    omega
  ⟨hcov, c1_compose_in_section_order [⟨1, "Alpha"⟩, ⟨2, "Beta"⟩] (fun _ => []) [1, 0] hcov⟩

/-- C2: every section fragment begins with a heading holding the section
title; with zero returned projects the fragment is exactly that heading
with no list markup, and with at least one project it holds exactly one
unordered-list opening and exactly one list-item opening per returned
project. -/
theorem c2_fragment_heading_and_lists (s : SectionRow) (ps : List Project)
    (htitle : '<' ∉ s.title.data)
    (hfields : ∀ q ∈ ps, '<' ∉ q.title.data ∧ '<' ∉ q.url.data ∧ '<' ∉ q.repo.data) :
    (∃ t, sectionFragment s ps = "<h2>" ++ s.title ++ "</h2>" ++ t) ∧
    (ps = [] → sectionFragment s ps = "<h2>" ++ s.title ++ "</h2>") ∧
    (ps ≠ [] →
      countSub ulTag (sectionFragment s ps) = 1 ∧
      countSub liTag (sectionFragment s ps) = ps.length) := by
  refine ⟨⟨_, rfl⟩, ?_, ?_⟩
  · rintro rfl
    simp [sectionFragment]
  · intro hne
    have hlen : ps.length ≠ 0 := fun h => hne (List.length_eq_zero.mp h)
    constructor
    · rw [countSub_sectionFragment ulTag (by decide) s ps htitle hfields (by decide)]
      unfold fragmentPieces
      rw [if_pos hlen, countPieces_append]
      simp only [countPieces]
      rw [countPieces_append, countPieces_items_ul]
      simp only [countPieces]
      decide
    · rw [countSub_sectionFragment liTag (by decide) s ps htitle hfields (by decide)]
      unfold fragmentPieces
      rw [if_pos hlen, countPieces_append]
      simp only [countPieces]
      rw [countPieces_append, countPieces_items_li]
      simp only [countPieces]
      have a1 : countOcc liTag.data ['<', 'h', '2', '>'] = 0 := by decide
      have a2 : countOcc liTag.data ['<', '/', 'h', '2', '>'] = 0 := by decide
      have a3 : countOcc liTag.data
          ['<', 'u', 'l', ' ', 'c', 'l', 'a', 's', 's', '=', '"', 'p', 'r',
           'o', 'j', 'e', 'c', 't', 's', '"', '>'] = 0 := by decide
      have a4 : countOcc liTag.data ['<', '/', 'u', 'l', '>'] = 0 := by decide
      omega

/-- Witness for C2 at a section with two projects. -/
theorem c2_fragment_heading_and_lists_witness :
    (∃ t, sectionFragment ⟨1, "Tools"⟩ [⟨1, 1, "A", "", ""⟩, ⟨2, 1, "B", "u", "r"⟩] =
        "<h2>" ++ "Tools" ++ "</h2>" ++ t) ∧
    ([⟨1, 1, "A", "", ""⟩, ⟨2, 1, "B", "u", "r"⟩] = ([] : List Project) →
      sectionFragment ⟨1, "Tools"⟩ [⟨1, 1, "A", "", ""⟩, ⟨2, 1, "B", "u", "r"⟩] =
        "<h2>" ++ "Tools" ++ "</h2>") ∧
    ([⟨1, 1, "A", "", ""⟩, ⟨2, 1, "B", "u", "r"⟩] ≠ ([] : List Project) →
      countSub ulTag (sectionFragment ⟨1, "Tools"⟩
        [⟨1, 1, "A", "", ""⟩, ⟨2, 1, "B", "u", "r"⟩]) = 1 ∧
      countSub liTag (sectionFragment ⟨1, "Tools"⟩
        [⟨1, 1, "A", "", ""⟩, ⟨2, 1, "B", "u", "r"⟩]) = 2) :=
  c2_fragment_heading_and_lists ⟨1, "Tools"⟩ [⟨1, 1, "A", "", ""⟩, ⟨2, 1, "B", "u", "r"⟩]
    (by decide) (by decide)

/-- C9: a project with a non-empty repo renders the github anchor
opening exactly once, yet the item holds a closing anchor tag only when
the url is present (the closing tag belonging to the link anchor): the
github anchor is never closed, and when the url is present the link
anchor sits textually right after the unclosed github opening, before
the item end. -/
theorem c9_unclosed_github_anchor (q : Project)
    (h1 : '<' ∉ q.title.data) (h2 : '<' ∉ q.url.data) (h3 : '<' ∉ q.repo.data)
    (hrepo : q.repo ≠ "") :
    countSub githubTag (renderProject q) = 1 ∧
    countSub closeAnchor (renderProject q) = (if q.url = "" then 0 else 1) ∧
    (q.url ≠ "" →
      renderProject q =
        "<li><div class=\"wrapper\"><span>" ++ q.title ++ "</span>" ++
          "<a class=\"github\" href=\"" ++ q.repo ++ "\" target=\"_blank\">" ++
          "<a class=\"link\" href=\"" ++ q.url ++ "\"></a>" ++ "</div></li>") := by
  refine ⟨?_, ?_, ?_⟩
  · rw [countSub_renderProject githubTag (by decide) q h1 h2 h3 (by decide)]
    by_cases hu : q.url = "" <;>
      simp [itemPieces, hrepo, hu, countPieces] <;> decide
  · rw [countSub_renderProject closeAnchor (by decide) q h1 h2 h3 (by decide)]
    by_cases hu : q.url = "" <;>
      simp [itemPieces, hrepo, hu, countPieces] <;> decide
  · intro hu
    apply String.ext
    simp [renderProject, hrepo, hu, String.data_append, List.append_assoc]

/-- Witness for C9 at a project having both a repo and a url. -/
theorem c9_unclosed_github_anchor_witness :
    countSub githubTag (renderProject ⟨1, 1, "W", "http://w", "http://g"⟩) = 1 ∧
    countSub closeAnchor (renderProject ⟨1, 1, "W", "http://w", "http://g"⟩) =
      (if ("http://w" : String) = "" then 0 else 1) ∧
    (("http://w" : String) ≠ "" →
      renderProject ⟨1, 1, "W", "http://w", "http://g"⟩ =
        "<li><div class=\"wrapper\"><span>" ++ "W" ++ "</span>" ++
          "<a class=\"github\" href=\"" ++ "http://g" ++ "\" target=\"_blank\">" ++
          "<a class=\"link\" href=\"" ++ "http://w" ++ "\"></a>" ++ "</div></li>") :=
  c9_unclosed_github_anchor ⟨1, 1, "W", "http://w", "http://g"⟩
    (by decide) (by decide) (by decide) (by decide)

/-- C4: a hostname whose first label is jessesolomon or localhost is
served from the default public root whatever the remaining labels; any
other first label is served from the matching apps subdirectory when
that directory exists at request time, and otherwise the response is
status 404 with an empty body. -/
theorem c4_tenant_resolution (hostname : String) (dirExists : String → Bool) :
    ((domainOf hostname = "jessesolomon" ∨ domainOf hostname = "localhost") →
      route hostname dirExists = .handle "public") ∧
    (¬(domainOf hostname = "jessesolomon" ∨ domainOf hostname = "localhost") →
      (dirExists ("apps/" ++ domainOf hostname) = true →
        route hostname dirExists = .handle ("apps/" ++ domainOf hostname)) ∧
      (dirExists ("apps/" ++ domainOf hostname) = false →
        route hostname dirExists = .reject 404 "")) := by
  unfold route
  by_cases h : domainOf hostname = "jessesolomon" ∨ domainOf hostname = "localhost"
  · simp [h]
  · refine ⟨fun hh => absurd hh h, fun _ => ⟨?_, ?_⟩⟩ <;> intro hd <;> simp [h, hd]

/-- Witness for C4: a reserved label, an existing tenant, and a missing
tenant. -/
theorem c4_tenant_resolution_witness :
    route "jessesolomon.dev" (fun _ => false) = .handle "public" ∧
    route "tools.example.com" (fun _ => true) = .handle ("apps/" ++ "tools") ∧
    route "ghost.example.com" (fun _ => false) = .reject 404 "" :=
  ⟨(c4_tenant_resolution "jessesolomon.dev" (fun _ => false)).1 (by decide),
   ((c4_tenant_resolution "tools.example.com" (fun _ => true)).2 (by decide)).1 rfl,
   ((c4_tenant_resolution "ghost.example.com" (fun _ => false)).2 (by decide)).2 rfl⟩

/-- C5: the analytics CREATE TABLE of line 81 declares no primary key
and no unique index, so the INSERT IGNORE of line 96 never suppresses a
duplicate: the write derived from one request, applied twice to an
empty table, stores two rows with the same hash.  Had the schema
declared the hash unique (third conjunct), the second write would have
been a silent no-op, which is what the specification describes. -/
theorem c5_duplicate_hash_rows_stored :
    analyticsWrites ⟨"1.2.3.4", "example.com", "/"⟩ =
      [⟨"1.2.3.4@example.com/", "example.com/"⟩] ∧
    analyticsInsert (analyticsInsert []
        ⟨"1.2.3.4@example.com/", "example.com/"⟩)
        ⟨"1.2.3.4@example.com/", "example.com/"⟩ =
      [⟨"1.2.3.4@example.com/", "example.com/"⟩,
       ⟨"1.2.3.4@example.com/", "example.com/"⟩] ∧
    insertIgnore true (insertIgnore true []
        ⟨"1.2.3.4@example.com/", "example.com/"⟩)
        ⟨"1.2.3.4@example.com/", "example.com/"⟩ =
      [⟨"1.2.3.4@example.com/", "example.com/"⟩] :=
  ⟨by decide, by decide, by decide⟩

/-- C6: a request whose visitor address is the loopback address ::1
issues no analytics write at all; any other request attempts exactly
one insert, carrying the composite hash and the url. -/
theorem c6_self_requests_not_recorded (req : Request) :
    (req.ip = "::1" → analyticsWrites req = []) ∧
    (req.ip ≠ "::1" → analyticsWrites req =
      [⟨req.ip ++ "@" ++ req.hostname ++ req.path,
        req.hostname ++ req.path⟩]) := by
  unfold analyticsWrites
  by_cases h : req.ip = "::1" <;> simp [h]

/-- Witness for C6: a loopback request and an external request. -/
theorem c6_self_requests_not_recorded_witness :
    analyticsWrites ⟨"::1", "example.com", "/"⟩ = [] ∧
    analyticsWrites ⟨"1.2.3.4", "example.com", "/"⟩ =
      [⟨"1.2.3.4" ++ "@" ++ "example.com" ++ "/", "example.com" ++ "/"⟩] :=
  ⟨(c6_self_requests_not_recorded ⟨"::1", "example.com", "/"⟩).1 rfl,
   (c6_self_requests_not_recorded ⟨"1.2.3.4", "example.com", "/"⟩).2 (by decide)⟩

/-- C7 counterexample: a request whose tenant resolution fails (the
apps directory does not exist) is rejected with 404, yet the analytics
write was still issued - the recorder runs before tenant resolution,
not after it. -/
theorem c7_counterexample_write_despite_rejection :
    (middleware ⟨"1.2.3.4", "ghost.example.com", "/"⟩ (fun _ => false)).2 =
      RouteDecision.reject 404 "" ∧
    (middleware ⟨"1.2.3.4", "ghost.example.com", "/"⟩ (fun _ => false)).1 ≠ [] :=
  ⟨by decide, by decide⟩

/-- C7 amended: the analytics insert of lines 95-97 is attempted before
tenant resolution and is independent of it: the writes a request emits
do not depend on the filesystem, and a non-self request attempts
exactly one insert even when resolution fails. -/
theorem c7_write_precedes_resolution (req : Request)
    (fs fs' : String → Bool) :
    (middleware req fs).1 = (middleware req fs').1 ∧
    (req.ip ≠ "::1" → (middleware req fs).1.length = 1) := by
  refine ⟨rfl, fun h => ?_⟩
  simp [middleware, analyticsWrites, h]

/-- Witness for the amended C7 at a request whose resolution fails. -/
theorem c7_write_precedes_resolution_witness :
    (middleware ⟨"1.2.3.4", "ghost.example.com", "/"⟩ (fun _ => false)).1 =
      (middleware ⟨"1.2.3.4", "ghost.example.com", "/"⟩ (fun _ => true)).1 ∧
    (middleware ⟨"1.2.3.4", "ghost.example.com", "/"⟩ (fun _ => false)).1.length = 1 :=
  ⟨(c7_write_precedes_resolution ⟨"1.2.3.4", "ghost.example.com", "/"⟩
      (fun _ => false) (fun _ => true)).1,
   (c7_write_precedes_resolution ⟨"1.2.3.4", "ghost.example.com", "/"⟩
      (fun _ => false) (fun _ => true)).2 (by decide)⟩

/-- C8 counterexample: when the sections query fails the composer does
not return a server-error response - it sends no response at all: the
callback crashes evaluating the missing row set. -/
theorem c8_counterexample_no_error_response :
    (homepageRun true none (fun _ => none)).2 =
      ComposeOutcome.sectionsCallbackCrash ∧
    responseOf (homepageRun true none (fun _ => none)).2 = none :=
  ⟨rfl, rfl⟩

/-- C8 amended: a failing composition query is not handled by the
source: a failed sections query crashes its callback, a failed projects
query stalls the fan-in forever, and in both cases the request is left
without any response (no server-error response is produced). -/
theorem c8_query_failure_unhandled (hasContainer : Bool)
    (projectsRes : Int → Option (List Project)) (sections : List SectionRow) :
    (homepageRun hasContainer none projectsRes).2 =
      ComposeOutcome.sectionsCallbackCrash ∧
    ((∃ s ∈ sections, projectsRes s.id = none) →
      (homepageRun hasContainer (some sections) projectsRes).2 =
        ComposeOutcome.fanoutStalled) ∧
    responseOf ComposeOutcome.sectionsCallbackCrash = none ∧
    responseOf ComposeOutcome.fanoutStalled = none := by
  refine ⟨rfl, ?_, rfl, rfl⟩
  rintro ⟨s, hs, hnone⟩
  have hall : sections.all (fun s => (projectsRes s.id).isSome) = false := by
    rw [Bool.eq_false_iff]
    intro hall
    rw [List.all_eq_true] at hall
    have := hall s hs
    simp [hnone] at this
  simp [homepageRun, hall]

/-- Witness for the amended C8 at one section whose query fails. -/
theorem c8_query_failure_unhandled_witness :
    (homepageRun true none (fun _ => (none : Option (List Project)))).2 =
      ComposeOutcome.sectionsCallbackCrash ∧
    (homepageRun true (some [⟨1, "S"⟩]) (fun _ => (none : Option (List Project)))).2 =
      ComposeOutcome.fanoutStalled :=
  ⟨(c8_query_failure_unhandled true (fun _ => none) [⟨1, "S"⟩]).1,
   (c8_query_failure_unhandled true (fun _ => none) [⟨1, "S"⟩]).2.1
     ⟨⟨1, "S"⟩, List.mem_cons_self _ _, rfl⟩⟩

/-- C10: when the template lacks the #sections element the composer
still issues the sections query plus one projects query per returned
section; once every query succeeds the fan-in fires, set_content is
invoked on the absent element and crashes, and no HTTP response is
ever sent. -/
theorem c10_missing_container_no_response (sections : List SectionRow)
    (projectsRes : Int → Option (List Project))
    (hok : ∀ s ∈ sections, (projectsRes s.id).isSome = true) :
    (homepageRun false (some sections) projectsRes).1 = 1 + sections.length ∧
    (homepageRun false (some sections) projectsRes).2 =
      ComposeOutcome.setContentCrash ∧
    responseOf (homepageRun false (some sections) projectsRes).2 = none := by
  have hall : sections.all (fun s => (projectsRes s.id).isSome) = true := by
    rw [List.all_eq_true]
    exact hok
  refine ⟨rfl, ?_, ?_⟩ <;> simp [homepageRun, hall, responseOf]

/-- Witness for C10 at one section with a succeeding projects query. -/
theorem c10_missing_container_no_response_witness :
    (homepageRun false (some [⟨1, "S"⟩]) (fun _ => some [])).1 = 1 + 1 ∧
    (homepageRun false (some [⟨1, "S"⟩]) (fun _ => some [])).2 =
      ComposeOutcome.setContentCrash ∧
    responseOf (homepageRun false (some [⟨1, "S"⟩]) (fun _ => some [])).2 = none :=
  c10_missing_container_no_response [⟨1, "S"⟩] (fun _ => some []) (by decide)

/-- C3: the rendered list item is the title span followed by the github
affordance exactly when repo is non-empty, then the link affordance
exactly when url is non-empty, in that order; and the concrete scenario
of one "Tools" section holding one "Widget" project with a url and no
repo composes to exactly the expected container content. -/
theorem c3_item_affordances_and_concrete_scenario :
    (∀ q : Project, renderProject q = projectItemSpec q) ∧
    composeContent [⟨1, "Tools"⟩]
      (fun sid => if sid = 1 then [⟨1, 1, "Widget", "http://w", ""⟩] else []) =
      "<h2>Tools</h2><ul class=\"projects\"><li><div class=\"wrapper\"><span>Widget</span><a class=\"link\" href=\"http://w\"></a></div></li></ul>" :=
  ⟨fun _ => rfl, by decide⟩
